import Mathlib

/-!
Verification of the dir-dumper directory walker against its specification.

The development shallowly embeds the Go sources:
* internal/ignore (types.go, matcher.go, the ShouldIgnore implementation and
  isPathInGitDir) as pure functions over relative paths,
* internal/walker (walker.go, types.go, the processFile / worker sources) as a
  pure traversal over a filesystem snapshot, producing the tracker contents,
  the atomic counter values and the sequence of handler invocations.

Relative paths are represented as lists of name components; the empty list
stands for the root itself (the string "." in the sources).  Machine int64
sizes are represented by Nat (all sizes in play are non-negative).
-/

namespace DirDumper

/-- Skip reasons, one per constant in walker/types.go. -/
inductive SkippedReason where
  | ignoredHidden
  | ignoredRule
  | filteredExtension
  | skippedSizeLimit
  | skippedNotRegular
  | skippedPermError
  | skippedWalkError
  | skippedReadError
  | skippedInfoError
  | skippedPathError
  | skippedDirIgnored
  deriving DecidableEq, Repr

/-- The user-visible reason strings from walker/types.go. -/
def SkippedReason.text : SkippedReason → String
  | .ignoredHidden => "Ignored (Hidden Rule)"
  | .ignoredRule => "Ignored (Gitignore/Custom Rule)"
  | .filteredExtension => "Filtered (Extension Mismatch)"
  | .skippedSizeLimit => "Skipped (Size Limit Exceeded)"
  | .skippedNotRegular => "Skipped (Not a Regular File)"
  | .skippedPermError => "Skipped (Permission Error)"
  | .skippedWalkError => "Skipped (Walk Error)"
  | .skippedReadError => "Skipped (Read Error)"
  | .skippedInfoError => "Skipped (File Info Error)"
  | .skippedPathError => "Skipped (Path Calculation Error)"
  | .skippedDirIgnored => "Skipped (Parent Directory Ignored)"

/-- A tracked skip event (SkippedItem in walker/types.go).  The path is the
root-relative component list. -/
structure SkippedItem where
  path : List String
  reason : SkippedReason
  isDir : Bool
  deriving DecidableEq, Repr

/-- Modelled from the spec: a single repository-style ignore rule of the
external pattern engine consumed by the matcher (the gitignore library is not
part of this repository).  A rule is a glob pattern, possibly negated
(an un-ignore rule). -/
structure IgnoreRule where
  neg : Bool
  pat : String
  deriving DecidableEq, Repr

/-- Modelled from the spec: fuel-indexed glob matching for the pattern engine.
A star matches any (possibly empty) run of characters, a question mark any
single character, and other characters match literally.  The fuel argument
only makes the recursion structural; globMatch supplies enough of it. -/
def globMatchF : Nat → List Char → List Char → Bool
  | 0, _, _ => false
  | _ + 1, [], [] => true
  | _ + 1, [], _ :: _ => false
  | fuel + 1, '*' :: ps, cs =>
      globMatchF fuel ps cs ||
        (match cs with
         | [] => false
         | _ :: cs2 => globMatchF fuel ('*' :: ps) cs2)
  | _ + 1, _ :: _, [] => false
  | fuel + 1, c :: ps, d :: cs2 => (c = '?' || c = d) && globMatchF fuel ps cs2

/-- Modelled from the spec: glob matching with sufficient fuel. -/
def globMatch (ps cs : List Char) : Bool :=
  globMatchF (ps.length + cs.length + 1) ps cs

/-- Modelled from the spec: a rule without a slash applies to the final name
component of the candidate path. -/
def ruleMatches (r : IgnoreRule) (path : List String) : Bool :=
  match path.getLast? with
  | none => false
  | some base => globMatch r.pat.toList base.toList

/-- Modelled from the spec: the last rule in scope that matches the path
decides; a later, more specific rule overrides an earlier one. -/
def lastMatch (rules : List IgnoreRule) (path : List String) : Option IgnoreRule :=
  (rules.filter (fun r => ruleMatches r path)).getLast?

/-- Modelled from the spec: the pattern engine reports a path as ignored when
the deciding rule is a plain (non-negated) ignore rule. -/
def libIgnore (rules : List IgnoreRule) (path : List String) : Bool :=
  match lastMatch rules path with
  | some r => !r.neg
  | none => false

/-- Modelled from the spec: the pattern engine reports a path as explicitly
included when the deciding rule is a negation (un-ignore) rule. -/
def libInclude (rules : List IgnoreRule) (path : List String) : Bool :=
  match lastMatch rules path with
  | some r => r.neg
  | none => false

/-- IgnoreMatcher state (ignore/types.go).  repoIgnore is none when the
library engine was never built; customPatterns is the pattern list that
ignore/matcher.go accumulates (it is extended with "/.git/" during init) —
exactly as in the source, ShouldIgnore below never reads it. -/
structure IgnoreMatcher where
  repoIgnore : Option (List IgnoreRule)
  ignoreHidden : Bool
  ignoreGit : Bool
  recursiveMode : Bool := true
  customPatterns : List String := []
  disabled : Bool := false
  deriving DecidableEq, Repr

/-- HasPrefix(name, ".") in the sources, computed on the character list. -/
def startsWithDot (s : String) : Bool :=
  match s.toList with
  | c :: _ => c = '.'
  | [] => false

/-- The hidden check of ShouldIgnore: the basename, or the basename of some
ancestor directory, starts with a dot.  Over component lists this is exactly:
some component starts with a dot. -/
def hasHiddenComponent (path : List String) : Bool :=
  path.any (fun c => startsWithDot c)

/-- Loop body of isPathInGitDir: a component equal to ".git" counts when the
entry is a directory or the component is not the final one (rest nonempty). -/
def gitSegLoop (isDir : Bool) : List String → Bool
  | [] => false
  | c :: rest => (c = ".git" && (isDir || !rest.isEmpty)) || gitSegLoop isDir rest

/-- isPathInGitDir from the ignore sources: some path segment equals ".git"
and that segment is not the final filename component of a file path. -/
def isPathInGitDir (relativePath : List String) (isDir : Bool) : Bool :=
  gitSegLoop isDir relativePath

/-- ShouldIgnore from the ignore sources.  The empty component list plays the
role of the "" / "." relative path (the root), which is never ignored. -/
def shouldIgnore (m : IgnoreMatcher) (relativePath : List String) (isDir : Bool) : Bool :=
  if m.disabled then false
  else if relativePath = [] then false
  else if m.ignoreHidden && hasHiddenComponent relativePath then true
  else if m.ignoreGit && isPathInGitDir relativePath isDir then true
  else
    match m.repoIgnore with
    | none => false
    | some rules =>
      let ignored := libIgnore rules relativePath
      let included := if ignored then libInclude rules relativePath else false
      if ignored then (if included then false else true) else false

/-- The walker consults the matcher only when it is non-nil
(walker.go line 142). -/
def ignoredBy (m : Option IgnoreMatcher) (relativePath : List String) (isDir : Bool) : Bool :=
  match m with
  | none => false
  | some mm => shouldIgnore mm relativePath isDir

/-- Well-formed component lists: the representation of a cleaned relative
path below the root — nonempty components, none of them "." or "..", and no
separator inside a component. -/
def wfPath (path : List String) : Bool :=
  path.all (fun c => c ≠ "" && c ≠ "." && c ≠ ".." && !(c.toList.contains '/'))

/-! Walker data model (walker.go, types.go and the processFile sources). -/

/-- Snapshot of a single file as the walker can observe it: the size reported
by Lstat, whether the mode is regular, whether Lstat and ReadFile succeed, and
the byte content ReadFile would return. -/
structure FileMeta where
  size : Nat
  regular : Bool := true
  statOk : Bool := true
  readOk : Bool := true
  content : List Nat := []
  deriving DecidableEq, Repr

mutual
/-- A filesystem subtree: a file, or a directory listing its children in the
enumeration order of WalkDir. -/
inductive FSNode where
  | file (meta : FileMeta)
  | dir (entries : FSEntries)
  deriving Repr
/-- A directory listing: named children in enumeration order. -/
inductive FSEntries where
  | nil
  | cons (name : String) (child : FSNode) (rest : FSEntries)
  deriving Repr
end

/-- Convenience constructor for directory listings. -/
def FSEntries.ofList : List (String × FSNode) → FSEntries
  | [] => .nil
  | (name, child) :: rest => .cons name child (FSEntries.ofList rest)

/-- The root argument of Walk: missing (Lstat fails), a non-directory, or a
directory tree. -/
inductive RootFS where
  | missing
  | file (meta : FileMeta)
  | dir (entries : FSEntries)
  deriving Repr

/-- The errors processFile hands to the walk callback. -/
inductive FileErr where
  | statFailed
  | sizeExceeded (size lim : Nat)
  | readFailed
  deriving DecidableEq, Repr

/-- One invocation of the caller-supplied walk function: relative path, the
content argument (none on failure) and the error argument. -/
structure HandlerCall where
  rel : List String
  content : Option (List Nat)
  err : Option FileErr
  deriving DecidableEq, Repr

/-- The caller-supplied handler.  Its Bool result stands for whether the
handler returned a non-nil error; as in the source it is discarded (only
logged). -/
def WalkFn : Type :=
  List String → Option (List Nat) → Option FileErr → Bool

/-- WalkOptions (the walker options source).  Logger and ProgressFn are pure
I/O and are not part of the data model; the context is modelled by the
cancelled flag (a token already triggered when the walk starts). -/
structure WalkOptions where
  concurrent : Bool := false
  maxWorkers : Nat := 10
  maxFileSize : Nat := 0
  extensionMap : Option (List String) := none
  cancelled : Bool := false
  deriving DecidableEq, Repr

/-- TrimPrefix(s, ".") from the sources: strips one leading dot. -/
def trimLeadingDot (s : String) : String :=
  match s.toList with
  | '.' :: rest => String.mk rest
  | _ => s

/-- ASCII model of strings.ToLower (every character the walker compares here
is ASCII). -/
def lowerString (s : String) : String :=
  String.mk (s.toList.map Char.toLower)

/-- WithExtensions: builds the allow-set stored in the options. -/
def withExtensions (extensions : List String) : Option (List String) :=
  some (extensions.map trimLeadingDot)

/-- Characters after the last dot of a name; empty when the name has no dot.
This is filepath.Ext applied to the final path element, with the leading dot
of the result stripped (as the walker does with TrimPrefix). -/
def afterLastDot (cs : List Char) : List Char :=
  if cs.contains '.' then ((cs.reverse.takeWhile (fun c => c ≠ '.')).reverse) else []

/-- The lowercased extension key the walker computes for a file:
ToLower (TrimPrefix (Ext path) "."). -/
def extKey (rel : List String) : String :=
  match rel.getLast? with
  | none => ""
  | some base => lowerString (String.mk (afterLastDot base.toList))

/-- The extension filter of processEntry (walker.go lines 159-170): active
only when the map is non-nil and nonempty; the file is filtered out when its
lowercased extension key is not in the allow-set. -/
def extFilteredOut (o : WalkOptions) (rel : List String) : Bool :=
  match o.extensionMap with
  | none => false
  | some allow => !allow.isEmpty && !(allow.contains (extKey rel))

/-- Events the per-entry decision step emits, in traversal order.  sawFile
and sawDir are the totalFiles / totalDirs increments; skipFile and skipDir
carry a tracker entry together with the skippedFiles / skippedDirs increment;
eligible marks a file that passed every check (walker.go line 172), which
increments processedFiles in the decision step. -/
inductive WalkEvent where
  | sawFile
  | sawDir
  | skipFile (item : SkippedItem)
  | skipDir (item : SkippedItem)
  | eligible (rel : List String) (meta : FileMeta)
  deriving DecidableEq, Repr

/-- What the WalkDir callback returns after a decision: keep going, prune the
subtree (filepath.SkipDir), or abort the walk (the context error — the only
non-SkipDir error processEntry ever returns). -/
inductive CbRes where
  | ok
  | skipSubtree
  | fatal
  deriving DecidableEq, Repr

/-- Outcome of the per-entry decision step. -/
structure EntryOut where
  events : List WalkEvent
  res : CbRes
  shouldProcess : Bool
  deriving DecidableEq, Repr

/-- Enumeration faults handed to the callback, classified the way the walker
classifies them through os.IsPermission. -/
inductive IOErr where
  | permission
  | other
  deriving DecidableEq, Repr

/-- processEntry (walker.go lines 84-175): the shared per-entry decision used
by both execution modes.  The branches appear in source order: the context
check, the counters, the walk-error branch, the root skip, the matcher, the
directory descend, the extension filter, and the processedFiles increment for
files passing every check (folded into the eligible event by the caller). -/
def processEntry (m : Option IgnoreMatcher) (o : WalkOptions) (rel : List String)
    (isDir : Bool) (errIn : Option IOErr) : EntryOut :=
  if o.cancelled then
    { events := [], res := .fatal, shouldProcess := false }
  else
    let seen : WalkEvent := if isDir then .sawDir else .sawFile
    match errIn with
    | some e =>
      let reason : SkippedReason :=
        match e with
        | .permission => .skippedPermError
        | .other => .skippedWalkError
      if isDir then
        { events := [seen, .skipDir ⟨rel, reason, true⟩],
          res := if e = .permission then .skipSubtree else .ok,
          shouldProcess := false }
      else
        { events := [seen, .skipFile ⟨rel, reason, false⟩], res := .ok,
          shouldProcess := false }
    | none =>
      if rel = [] then
        { events := [seen], res := .ok, shouldProcess := false }
      else if ignoredBy m rel isDir then
        if isDir then
          { events := [seen, .skipDir ⟨rel, .ignoredRule, true⟩],
            res := .skipSubtree, shouldProcess := false }
        else
          { events := [seen, .skipFile ⟨rel, .ignoredRule, false⟩], res := .ok,
            shouldProcess := false }
      else if isDir then
        { events := [seen], res := .ok, shouldProcess := false }
      else if extFilteredOut o rel then
        { events := [seen, .skipFile ⟨rel, .filteredExtension, false⟩],
          res := .ok, shouldProcess := false }
      else
        { events := [seen], res := .ok, shouldProcess := true }

mutual
/-- Enumeration of a subtree, yielding the decision events in traversal order
and whether a fatal (context) error aborted the walk.  Mirrors WalkDir driving
the per-entry callback: an ignored directory is pruned without visiting its
children; a fatal result stops the whole traversal. -/
def enumNode (m : Option IgnoreMatcher) (o : WalkOptions) :
    FSNode → List String → List WalkEvent × Bool
  | .file meta, rel =>
    let e := processEntry m o rel false none
    if e.res = .fatal then (e.events, true)
    else (e.events ++ (if e.shouldProcess then [.eligible rel meta] else []), false)
  | .dir entries, rel =>
    let e := processEntry m o rel true none
    if e.res = .fatal then (e.events, true)
    else if e.res = .skipSubtree then (e.events, false)
    else
      let r := enumEntries m o entries rel
      (e.events ++ r.1, r.2)
/-- Enumeration of a directory listing, stopping at the first fatal result as
WalkDir does. -/
def enumEntries (m : Option IgnoreMatcher) (o : WalkOptions) :
    FSEntries → List String → List WalkEvent × Bool
  | .nil, _ => ([], false)
  | .cons name child rest, rel =>
    let r1 := enumNode m o child (rel ++ [name])
    if r1.2 then (r1.1, true)
    else
      let r2 := enumEntries m o rest rel
      (r1.1 ++ r2.1, r2.2)
end

/-- Enumeration starting from the Walk root.  A missing root is reported to
the callback once with the Lstat error and a nil dir entry (hence isDir is
false and, the error not being a permission error, the walk-error reason); a
file root is visited once and, being the root, skipped; a directory root is
visited and then its children are enumerated. -/
def enumRoot (m : Option IgnoreMatcher) (o : WalkOptions) :
    RootFS → List WalkEvent × Bool
  | .missing =>
    let e := processEntry m o [] false (some .other)
    (e.events, e.res = .fatal)
  | .file _ =>
    let e := processEntry m o [] false none
    (e.events, e.res = .fatal)
  | .dir entries =>
    let e := processEntry m o [] true none
    if e.res = .fatal then (e.events, true)
    else if e.res = .skipSubtree then (e.events, false)
    else
      let r := enumEntries m o entries []
      (e.events ++ r.1, r.2)

/-- Read-and-deliver tail of processFile: ReadFile either fails (tracked,
handler invoked with nil content and the read error) or succeeds (handler
invoked with the content and a nil error; the handler's own returned error is
only logged, so it is discarded here exactly as in the source). -/
def processFileRead (wfn : WalkFn) (rel : List String) (f : FileMeta) :
    List SkippedItem × List HandlerCall :=
  if f.readOk = false then
    let _ := wfn rel none (some .readFailed)
    ([⟨rel, .skippedReadError, false⟩], [⟨rel, none, some .readFailed⟩])
  else
    let _ := wfn rel (some f.content) none
    ([], [⟨rel, some f.content, none⟩])

/-- processFile from the walker sources: with a positive size limit the file
is Lstat-ed first (failure: tracked and reported to the handler), non-regular
files are skipped silently, oversized files are tracked and reported to the
handler with a nil content and the size error; otherwise the content is read
and delivered.  Returns the tracker entries and handler invocations this call
appends, in order. -/
def processFile (o : WalkOptions) (wfn : WalkFn) (rel : List String) (f : FileMeta) :
    List SkippedItem × List HandlerCall :=
  if 0 < o.maxFileSize then
    if f.statOk = false then
      let _ := wfn rel none (some .statFailed)
      ([⟨rel, .skippedInfoError, false⟩], [⟨rel, none, some .statFailed⟩])
    else if f.regular = false then
      ([⟨rel, .skippedNotRegular, false⟩], [])
    else if o.maxFileSize < f.size then
      let _ := wfn rel none (some (.sizeExceeded f.size o.maxFileSize))
      ([⟨rel, .skippedSizeLimit, false⟩],
        [⟨rel, none, some (.sizeExceeded f.size o.maxFileSize)⟩])
    else processFileRead wfn rel f
  else processFileRead wfn rel f

/-- The mutable walk state: the skipped-items tracker and the five atomic
counters, together with the record of handler invocations. -/
structure WalkState where
  tracker : List SkippedItem := []
  calls : List HandlerCall := []
  totalFiles : Nat := 0
  processedFiles : Nat := 0
  skippedFiles : Nat := 0
  totalDirs : Nat := 0
  skippedDirs : Nat := 0
  deriving DecidableEq, Repr

/-- Sequential-mode interpretation of one decision event.  An eligible file
gets processedFiles incremented once in the decision step (walker.go line
173) and once more in the sequential branch (walker.go line 286), around the
inline processFile call. -/
def applySeq (o : WalkOptions) (wfn : WalkFn) (s : WalkState) : WalkEvent → WalkState
  | .sawFile => { s with totalFiles := s.totalFiles + 1 }
  | .sawDir => { s with totalDirs := s.totalDirs + 1 }
  | .skipFile item =>
    { s with tracker := s.tracker ++ [item], skippedFiles := s.skippedFiles + 1 }
  | .skipDir item =>
    { s with tracker := s.tracker ++ [item], skippedDirs := s.skippedDirs + 1 }
  | .eligible rel f =>
    let d := processFile o wfn rel f
    { s with processedFiles := s.processedFiles + 1 + 1,
             tracker := s.tracker ++ d.1,
             calls := s.calls ++ d.2 }

/-- Concurrent-mode interpretation of one decision event on the enumeration
goroutine: identical to the sequential one except that an eligible file is
only counted once (the decision-step increment) and queued instead of being
processed inline. -/
def applyConcEnum (s : WalkState) : WalkEvent → WalkState
  | .sawFile => { s with totalFiles := s.totalFiles + 1 }
  | .sawDir => { s with totalDirs := s.totalDirs + 1 }
  | .skipFile item =>
    { s with tracker := s.tracker ++ [item], skippedFiles := s.skippedFiles + 1 }
  | .skipDir item =>
    { s with tracker := s.tracker ++ [item], skippedDirs := s.skippedDirs + 1 }
  | .eligible _ _ => { s with processedFiles := s.processedFiles + 1 }

/-- Walk in sequential mode: fold the decision events, processing eligible
files inline.  The Bool is whether Walk returns a non-nil (fatal) error. -/
def runWalkSeq (m : Option IgnoreMatcher) (o : WalkOptions) (wfn : WalkFn)
    (root : RootFS) : WalkState × Bool :=
  let r := enumRoot m o root
  (r.1.foldl (applySeq o wfn) {}, r.2)

/-- The queue contents in concurrent mode: the eligible (path, meta) pairs in
enumeration order. -/
def eligList (events : List WalkEvent) : List (List String × FileMeta) :=
  events.filterMap (fun e =>
    match e with
    | .eligible rel f => some (rel, f)
    | _ => none)

/-- The handler invocations one queued item produces in a worker. -/
def callsOfItem (o : WalkOptions) (wfn : WalkFn)
    (it : List String × FileMeta) : List HandlerCall :=
  (processFile o wfn it.1 it.2).2

/-- The enumeration-side state in concurrent mode (counters and tracker as
maintained by the enumeration goroutine). -/
def concEnumState (m : Option IgnoreMatcher) (o : WalkOptions) (root : RootFS) :
    WalkState :=
  (enumRoot m o root).1.foldl applyConcEnum {}

/-- The subsequence of queued items a given worker dequeues, for a schedule
assigning each queued item (by position) to a worker. -/
def workerItems {n : Nat} (items : List (List String × FileMeta))
    (assign : List (Fin n)) (w : Fin n) : List (List String × FileMeta) :=
  ((items.zip assign).filter (fun p => p.2 = w)).map Prod.fst

/-- The handler invocations a given worker performs, in its dequeue order. -/
def workerCalls {n : Nat} (o : WalkOptions) (wfn : WalkFn)
    (items : List (List String × FileMeta)) (assign : List (Fin n)) (w : Fin n) :
    List HandlerCall :=
  (workerItems items assign w).flatMap (callsOfItem o wfn)

/-! Spec-side definition used to compare the extension filter against the
specification's wording, and concrete fixtures used by individual claims. -/

/-- Modelled from the spec's words, for comparison with the implementation:
"filtered by extension (case-insensitive ...)" / "an allow-set entry matches
the file's suffix regardless of the letter case of either": the allow-set
admits a file when it is empty or some entry, stripped of a leading dot and
lowercased, equals the file's lowercased suffix. -/
def specExtAllowed (allow : List String) (rel : List String) : Bool :=
  allow.isEmpty || allow.any (fun a => lowerString (trimLeadingDot a) = extKey rel)

/-- A handler that returns no error; used as the concrete walk function of
the closed scenarios. -/
def wfnNone : WalkFn := fun _ _ _ => false

/-- A handler that always returns an error; used to exercise the fact that
handler results never influence the walk. -/
def wfnErr : WalkFn := fun _ _ _ => true

/-- The matcher of the negation scenario: repository rules *.log and
!keep.log in the same scope, default policy flags. -/
def negMatcher : IgnoreMatcher :=
  { repoIgnore := some [⟨false, "*.log"⟩, ⟨true, "keep.log"⟩],
    ignoreHidden := true, ignoreGit := true }

/-- A regular, readable file with the given content. -/
def fmBytes (c : List Nat) : FileMeta :=
  { size := c.length, content := c }

/-- Scenario A matcher: hidden and VCS policies on, custom pattern dist/
stored (plus the /.git/ entry init appends), repository engine loaded with no
on-disk ignore files. -/
def scenarioAMatcher : IgnoreMatcher :=
  { repoIgnore := some [], ignoreHidden := true, ignoreGit := true,
    customPatterns := ["dist/", "/.git/"] }

/-- Scenario A root: a.go, .hidden/file.go and dist/out.bin. -/
def scenarioARoot : RootFS :=
  .dir (FSEntries.ofList
    [(".hidden", .dir (FSEntries.ofList [("file.go", .file (fmBytes [1]))])),
     ("a.go", .file (fmBytes [2, 3])),
     ("dist", .dir (FSEntries.ofList [("out.bin", .file (fmBytes [4]))]))])

/-- Scenario A options: extension allow-set go, no size limit. -/
def scenarioAOpts : WalkOptions :=
  { extensionMap := withExtensions ["go"] }

/-- A matcher with both conventions on and no repository rules. -/
def plainMatcher : IgnoreMatcher :=
  { repoIgnore := none, ignoreHidden := true, ignoreGit := true }

/-- A matcher with only the VCS-directory policy on. -/
def gitOnlyMatcher : IgnoreMatcher :=
  { repoIgnore := none, ignoreHidden := false, ignoreGit := true }

/-! Helper lemmas. -/

theorem processEntry_not_fatal (m : Option IgnoreMatcher) (o : WalkOptions)
    (rel : List String) (isDir : Bool) (errIn : Option IOErr)
    (h : o.cancelled = false) :
    (processEntry m o rel isDir errIn).res ≠ CbRes.fatal := by
  unfold processEntry
  simp only [h, Bool.false_eq_true, if_false]
  cases errIn with
  | some e => cases e <;> cases isDir <;> simp
  | none =>
    by_cases h1 : rel = [] <;> by_cases h2 : ignoredBy m rel isDir = true <;>
      cases isDir <;> by_cases h3 : extFilteredOut o rel = true <;>
      simp [h1, h2, h3]

mutual
theorem enumNode_no_fatal (m : Option IgnoreMatcher) (o : WalkOptions)
    (h : o.cancelled = false) :
    ∀ (node : FSNode) (rel : List String), (enumNode m o node rel).2 = false
  | .file meta, rel => by
    have hf := processEntry_not_fatal m o rel false none h
    unfold enumNode
    simp [hf]
  | .dir entries, rel => by
    have hf := processEntry_not_fatal m o rel true none h
    have he := enumEntries_no_fatal m o h entries rel
    unfold enumNode
    rw [if_neg hf]
    split
    · rfl
    · simpa using he
theorem enumEntries_no_fatal (m : Option IgnoreMatcher) (o : WalkOptions)
    (h : o.cancelled = false) :
    ∀ (entries : FSEntries) (rel : List String), (enumEntries m o entries rel).2 = false
  | .nil, _ => by simp [enumEntries]
  | .cons name child rest, rel => by
    have h1 := enumNode_no_fatal m o h child (rel ++ [name])
    have h2 := enumEntries_no_fatal m o h rest rel
    unfold enumEntries
    simp [h1, h2]
end

theorem enumRoot_no_fatal (m : Option IgnoreMatcher) (o : WalkOptions)
    (h : o.cancelled = false) (root : RootFS) :
    (enumRoot m o root).2 = false := by
  cases root with
  | missing =>
    have hf := processEntry_not_fatal m o [] false (some .other) h
    simp [enumRoot, hf]
  | file meta =>
    have hf := processEntry_not_fatal m o [] false none h
    simp [enumRoot, hf]
  | dir entries =>
    have hf := processEntry_not_fatal m o [] true none h
    have he := enumEntries_no_fatal m o h entries []
    show (let e := processEntry m o [] true none
      if e.res = CbRes.fatal then (e.events, true)
      else if e.res = CbRes.skipSubtree then (e.events, false)
      else
        let r := enumEntries m o entries []
        (e.events ++ r.1, r.2)).2 = false
    rw [if_neg hf]
    split
    · rfl
    · simpa using he

/-- C1 (counterexample): in end-to-end scenario A the skipped-items sequence
contains no entry at all for .hidden/file.go (the hidden directory is pruned
at .hidden itself), and no entry for dist/out.bin carrying the reason string
"Ignored (Gitignore/Custom Rule)" — refuting the claimed skipped-items
contents. -/
theorem scenarioA_claim_false :
    ((runWalkSeq (some scenarioAMatcher) scenarioAOpts wfnNone scenarioARoot).1.tracker.any
      (fun it => it.path = [".hidden", "file.go"])) = false ∧
    ((runWalkSeq (some scenarioAMatcher) scenarioAOpts wfnNone scenarioARoot).1.tracker.any
      (fun it => it.path = ["dist", "out.bin"] &&
        it.reason.text = "Ignored (Gitignore/Custom Rule)")) = false := by
  decide

/-- C1 (amended): in end-to-end scenario A only a.go is delivered to the
handler, and the skipped items are exactly .hidden (the pruned directory)
with reason "Ignored (Gitignore/Custom Rule)" and dist/out.bin with reason
"Filtered (Extension Mismatch)": the stored custom pattern dist/ is never
consulted by ShouldIgnore, so dist is descended into and out.bin falls to the
extension filter, while the hidden rule fires at the directory .hidden, which
is pruned under the generic matcher reason. -/
theorem scenarioA_walk :
    (runWalkSeq (some scenarioAMatcher) scenarioAOpts wfnNone scenarioARoot).1.calls =
      [⟨["a.go"], some [2, 3], none⟩] ∧
    (runWalkSeq (some scenarioAMatcher) scenarioAOpts wfnNone scenarioARoot).1.tracker =
      [⟨[".hidden"], .ignoredRule, true⟩,
       ⟨["dist", "out.bin"], .filteredExtension, false⟩] ∧
    (runWalkSeq (some scenarioAMatcher) scenarioAOpts wfnNone scenarioARoot).2 = false := by
  decide

/-- C2 (counterexample): a walk whose root does not exist returns a nil
error; the failed root Lstat is merely recorded in the skipped items with the
walk-error reason, refuting the claim that Walk fails with a non-nil error
for a nonexistent root. -/
theorem walk_missing_root_not_fatal :
    (runWalkSeq none {} wfnNone .missing).2 = false ∧
    (runWalkSeq none {} wfnNone .missing).1.tracker =
      [⟨[], .skippedWalkError, false⟩] := by
  decide

/-- C2 (amended): unless the cancellation token has fired, Walk returns a nil
error for every root — including a missing or non-directory root; a missing
root is recorded as a single skipped item with the walk-error reason.  (Root
existence is validated by the application layer before Walk is called; Walk's
only own fatal conditions are absolute-path resolution failure and
cancellation.) -/
theorem walk_error_only_on_cancellation (m : Option IgnoreMatcher)
    (o : WalkOptions) (wfn : WalkFn) (root : RootFS)
    (h : o.cancelled = false) :
    (runWalkSeq m o wfn root).2 = false ∧
    (root = .missing →
      (runWalkSeq m o wfn root).1.tracker = [⟨[], .skippedWalkError, false⟩]) := by
  constructor
  · show (enumRoot m o root).2 = false
    exact enumRoot_no_fatal m o h root
  · intro hr
    subst hr
    simp [runWalkSeq, enumRoot, processEntry, h, applySeq]

/-- C2 (witness): the amended statement at the missing root with default
options. -/
theorem walk_error_only_on_cancellation_witness :
    ({} : WalkOptions).cancelled = false ∧
    ((runWalkSeq none {} wfnNone .missing).2 = false ∧
      (RootFS.missing = .missing →
        (runWalkSeq none {} wfnNone .missing).1.tracker =
          [⟨[], .skippedWalkError, false⟩])) :=
  ⟨by decide, walk_error_only_on_cancellation none {} wfnNone .missing (by decide)⟩

/-- C3: with the hidden policy enabled (and the matcher not disabled), every
well-formed relative path with some component starting with a dot is ignored,
for files and directories alike — in particular when only an ancestor
directory component is hidden. -/
theorem shouldIgnore_hidden_component (m : IgnoreMatcher) (rel : List String)
    (hdis : m.disabled = false) (hhid : m.ignoreHidden = true)
    (hwf : wfPath rel = true)
    (hdot : rel.any startsWithDot = true) :
    ∀ b : Bool, shouldIgnore m rel b = true := by
  intro b
  have hne : rel ≠ [] := by
    intro hcon
    subst hcon
    simp at hdot
  unfold shouldIgnore
  simp [hdis, hne, hhid, hasHiddenComponent, hdot]

/-- C3 (witness): .cache/file.txt is ignored as file and as directory even
though its basename is not hidden. -/
theorem shouldIgnore_hidden_component_witness :
    plainMatcher.disabled = false ∧
    plainMatcher.ignoreHidden = true ∧
    wfPath [".cache", "file.txt"] = true ∧
    [".cache", "file.txt"].any startsWithDot = true ∧
    shouldIgnore plainMatcher [".cache", "file.txt"] false = true ∧
    shouldIgnore plainMatcher [".cache", "file.txt"] true = true :=
  ⟨by decide, by decide, by decide, by decide,
    shouldIgnore_hidden_component plainMatcher [".cache", "file.txt"]
      (by decide) (by decide) (by decide) (by decide) false,
    shouldIgnore_hidden_component plainMatcher [".cache", "file.txt"]
      (by decide) (by decide) (by decide) (by decide) true⟩

/-- C5: with ignore rule *.log followed by negation rule !keep.log in the
same scope, keep.log is not ignored while other.log is — the later un-ignore
rule overrides the earlier ignore rule. -/
theorem shouldIgnore_negation :
    shouldIgnore negMatcher ["keep.log"] false = false ∧
    shouldIgnore negMatcher ["other.log"] false = true := by
  decide

theorem gitSegLoop_of_mem (isDir : Bool) :
    ∀ (rel : List String) (i : Nat) (hi : i < rel.length),
      rel.get ⟨i, hi⟩ = ".git" → (isDir = true ∨ i + 1 < rel.length) →
      gitSegLoop isDir rel = true := by
  intro rel
  induction rel with
  | nil => intro i hi; simp at hi
  | cons c rest ih =>
    intro i hi hget hpos
    cases i with
    | zero =>
      simp at hget
      subst hget
      rcases hpos with hb | hlen
      · simp [gitSegLoop, hb]
      · have : rest ≠ [] := by
          intro hcon
          subst hcon
          simp at hlen
        simp [gitSegLoop, List.isEmpty_iff, this]
    | succ j =>
      have hj : j < rest.length := by simpa using hi
      have hpos2 : isDir = true ∨ j + 1 < rest.length := by
        rcases hpos with hb | hlen
        · exact Or.inl hb
        · right
          simp at hlen
          omega
      have := ih j hj (by simpa using hget) hpos2
      simp [gitSegLoop, this]

/-- C4: with the VCS policy on (and the matcher not disabled), any path with
a segment equal to the VCS directory name that is not the final filename
component of a file is ignored; and the VCS rule itself never fires for a
path none of whose segments equals the VCS directory name — in particular a
file merely named with the VCS name as a leading part, such as .gitfoo. -/
theorem shouldIgnore_vcs_rule :
    (∀ (m : IgnoreMatcher) (rel : List String) (b : Bool) (i : Nat)
      (hi : i < rel.length),
      m.disabled = false → m.ignoreGit = true →
      rel.get ⟨i, hi⟩ = ".git" → (b = true ∨ i + 1 < rel.length) →
      shouldIgnore m rel b = true) ∧
    (∀ (rel : List String) (b : Bool),
      rel.all (fun c => c ≠ ".git") = true →
      isPathInGitDir rel b = false) := by
  constructor
  · intro m rel b i hi hdis hgit hget hpos
    have hne : rel ≠ [] := by
      intro hcon
      subst hcon
      simp at hi
    have hloop : gitSegLoop b rel = true := gitSegLoop_of_mem b rel i hi hget hpos
    unfold shouldIgnore
    by_cases hh : (m.ignoreHidden && hasHiddenComponent rel) = true
    · simp [hdis, hne, hh]
    · simp [hdis, hne, hh, hgit, isPathInGitDir, hloop]
  · intro rel b hall
    induction rel with
    | nil => simp [isPathInGitDir, gitSegLoop]
    | cons c rest ih =>
      simp only [List.all_cons, Bool.and_eq_true] at hall
      have h1 : c ≠ ".git" := by simpa using hall.1
      have h2 := ih hall.2
      simp only [isPathInGitDir, gitSegLoop] at h2 ⊢
      simp [h1, h2]

/-- C4 (witness): .git/config is ignored through the VCS rule alone (hidden
policy off), and .gitfoo does not trip the VCS rule. -/
theorem shouldIgnore_vcs_rule_witness :
    gitOnlyMatcher.disabled = false ∧
    gitOnlyMatcher.ignoreGit = true ∧
    shouldIgnore gitOnlyMatcher [".git", "config"] false = true ∧
    isPathInGitDir [".gitfoo"] false = false :=
  ⟨by decide, by decide,
    shouldIgnore_vcs_rule.1 gitOnlyMatcher [".git", "config"] false 0 (by decide)
      (by decide) (by decide) (by decide) (Or.inr (by decide)),
    shouldIgnore_vcs_rule.2 [".gitfoo"] false (by decide)⟩

/-- C6: with a positive size limit, a regular readable file of exactly the
limit is read and delivered with nil error, while a file one byte over is not
read — it is tracked under the size-limit reason and the handler is still
invoked with nil content and the size-limit error. -/
theorem processFile_size_boundary (o : WalkOptions) (wfn : WalkFn)
    (rel : List String) (f g : FileMeta)
    (hmax : 0 < o.maxFileSize)
    (hfs : f.statOk = true) (hfr : f.regular = true) (hfread : f.readOk = true)
    (hfsize : f.size = o.maxFileSize)
    (hgs : g.statOk = true) (hgr : g.regular = true)
    (hgsize : g.size = o.maxFileSize + 1) :
    processFile o wfn rel f = ([], [⟨rel, some f.content, none⟩]) ∧
    processFile o wfn rel g =
      ([⟨rel, .skippedSizeLimit, false⟩],
       [⟨rel, none, some (.sizeExceeded g.size o.maxFileSize)⟩]) := by
  constructor
  · unfold processFile processFileRead
    simp [hmax, hfs, hfr, hfread, hfsize]
  · unfold processFile
    simp [hmax, hgs, hgr, hgsize]

/-- C6 (witness): limit 5, a five-byte file is delivered, a six-byte file is
reported through the size-limit error. -/
theorem processFile_size_boundary_witness :
    (0 : Nat) < ({ maxFileSize := 5 } : WalkOptions).maxFileSize ∧
    processFile { maxFileSize := 5 } wfnNone ["exact.bin"]
        { size := 5, content := [7, 7, 7, 7, 7] } =
      ([], [⟨["exact.bin"], some [7, 7, 7, 7, 7], none⟩]) ∧
    processFile { maxFileSize := 5 } wfnNone ["big.bin"] { size := 6 } =
      ([⟨["big.bin"], .skippedSizeLimit, false⟩],
       [⟨["big.bin"], none, some (.sizeExceeded 6 5)⟩]) :=
  ⟨by decide,
    (processFile_size_boundary { maxFileSize := 5 } wfnNone ["exact.bin"]
      { size := 5, content := [7, 7, 7, 7, 7] } { size := 6 } (by decide)
      (by decide) (by decide) (by decide) (by decide) (by decide) (by decide)
      (by decide)).1,
    (processFile_size_boundary { maxFileSize := 5 } wfnNone ["big.bin"]
      { size := 5, content := [7, 7, 7, 7, 7] } { size := 6 } (by decide)
      (by decide) (by decide) (by decide) (by decide) (by decide) (by decide)
      (by decide)).2⟩

theorem foldl_applySeq_processed (o : WalkOptions) (wfn : WalkFn) :
    ∀ (evs : List WalkEvent) (s : WalkState),
      (evs.foldl (applySeq o wfn) s).processedFiles =
        s.processedFiles + 2 * (eligList evs).length := by
  intro evs
  induction evs with
  | nil => intro s; simp [eligList]
  | cons ev evs ih =>
    intro s
    cases ev <;> simp [applySeq, eligList, List.filterMap_cons, ih]
    omega

theorem foldl_applyConcEnum_processed :
    ∀ (evs : List WalkEvent) (s : WalkState),
      (evs.foldl applyConcEnum s).processedFiles =
        s.processedFiles + (eligList evs).length := by
  intro evs
  induction evs with
  | nil => intro s; simp [eligList]
  | cons ev evs ih =>
    intro s
    cases ev <;> simp [applyConcEnum, eligList, List.filterMap_cons, ih]
    omega

/-- C10: the shared processed-files counter ends at twice the number of
files handed to processFile in sequential mode (one increment in the
decision step and one in the sequential branch), and at exactly the number
of dispatched files in concurrent mode. -/
theorem processed_counter_modes (m : Option IgnoreMatcher) (o : WalkOptions)
    (wfn : WalkFn) (root : RootFS) :
    (runWalkSeq m o wfn root).1.processedFiles =
      2 * (eligList (enumRoot m o root).1).length ∧
    (concEnumState m o root).processedFiles =
      (eligList (enumRoot m o root).1).length := by
  constructor
  · show ((enumRoot m o root).1.foldl (applySeq o wfn) {}).processedFiles = _
    rw [foldl_applySeq_processed]
    simp
  · show ((enumRoot m o root).1.foldl applyConcEnum {}).processedFiles = _
    rw [foldl_applyConcEnum_processed]
    simp

theorem foldl_applySeq_calls (o : WalkOptions) (wfn : WalkFn) :
    ∀ (evs : List WalkEvent) (s : WalkState),
      (evs.foldl (applySeq o wfn) s).calls =
        s.calls ++ (eligList evs).flatMap (callsOfItem o wfn) := by
  intro evs
  induction evs with
  | nil => intro s; simp [eligList]
  | cons ev evs ih =>
    intro s
    cases ev <;> simp [applySeq, eligList, List.filterMap_cons, ih, callsOfItem]

theorem sum_worker_parts {α β : Type} {n : Nat} (g : α → List β) :
    ∀ ps : List (α × Fin n),
      (∑ w : Fin n,
        ((((ps.filter (fun p => p.2 = w)).map Prod.fst).flatMap g : List β) : Multiset β)) =
      (((ps.map Prod.fst).flatMap g : List β) : Multiset β) := by
  intro ps
  induction ps with
  | nil => simp
  | cons a ps ih =>
    have key : ∀ w : Fin n,
        (((((a :: ps).filter (fun p => p.2 = w)).map Prod.fst).flatMap g : List β) : Multiset β) =
          (if a.2 = w then ((g a.1 : List β) : Multiset β) else 0) +
            ((((ps.filter (fun p => p.2 = w)).map Prod.fst).flatMap g : List β) : Multiset β) := by
      intro w
      by_cases hw : a.2 = w
      · simp [List.filter_cons, hw]
      · simp [List.filter_cons, hw]
    rw [Finset.sum_congr rfl (fun w _ => key w), Finset.sum_add_distrib, ih]
    simp [Finset.sum_ite_eq]

/-- C7: for a fixed snapshot, matcher and configuration (no cancellation
needed as a hypothesis: the schedule covers exactly the queued items), the
multiset of handler invocations produced by the workers of concurrent mode —
for any worker count at least 1 and any assignment of queued files to
workers — equals the multiset of handler invocations of sequential mode. -/
theorem walk_concurrent_equiv (m : Option IgnoreMatcher) (o : WalkOptions)
    (wfn : WalkFn) (root : RootFS) (n : Nat) (assign : List (Fin n))
    (_hn : 1 ≤ n)
    (hlen : assign.length = (eligList (enumRoot m o root).1).length) :
    (∑ w : Fin n,
      ((workerCalls o wfn (eligList (enumRoot m o root).1) assign w : List HandlerCall) :
        Multiset HandlerCall)) =
    (((runWalkSeq m o wfn root).1.calls : List HandlerCall) : Multiset HandlerCall) := by
  have hcalls : (runWalkSeq m o wfn root).1.calls =
      (eligList (enumRoot m o root).1).flatMap (callsOfItem o wfn) := by
    show ((enumRoot m o root).1.foldl (applySeq o wfn) {}).calls = _
    rw [foldl_applySeq_calls]
    rfl
  rw [hcalls]
  have hzip : (((eligList (enumRoot m o root).1).zip assign).map Prod.fst) =
      eligList (enumRoot m o root).1 :=
    List.map_fst_zip _ _ (le_of_eq hlen.symm)
  have := sum_worker_parts (callsOfItem o wfn) ((eligList (enumRoot m o root).1).zip assign)
  rw [hzip] at this
  exact this

/-- C7 (witness): a two-file snapshot, two workers, one file each. -/
theorem walk_concurrent_equiv_witness :
    1 ≤ 2 ∧
    ([0, 1] : List (Fin 2)).length =
      (eligList (enumRoot none {} (.dir (FSEntries.ofList
        [("a.txt", .file (fmBytes [1])), ("b.txt", .file (fmBytes [2]))]))).1).length ∧
    (∑ w : Fin 2,
      ((workerCalls {} wfnNone
          (eligList (enumRoot none {} (.dir (FSEntries.ofList
            [("a.txt", .file (fmBytes [1])), ("b.txt", .file (fmBytes [2]))]))).1)
          ([0, 1] : List (Fin 2)) w : List HandlerCall) : Multiset HandlerCall)) =
    (((runWalkSeq none {} wfnNone (.dir (FSEntries.ofList
        [("a.txt", .file (fmBytes [1])), ("b.txt", .file (fmBytes [2]))]))).1.calls :
      List HandlerCall) : Multiset HandlerCall) :=
  ⟨by decide, by decide,
    walk_concurrent_equiv none {} wfnNone
      (.dir (FSEntries.ofList
        [("a.txt", .file (fmBytes [1])), ("b.txt", .file (fmBytes [2]))]))
      2 ([0, 1] : List (Fin 2)) (by decide) (by decide)⟩

/-- C8 (counterexample): with the allow-set built by WithExtensions from the
entry GO, the file a.go is filtered out (tracked as an extension mismatch)
even though the allow-set contains the file's extension up to letter case —
refuting the claim that the comparison is case-insensitive in the allow-set
entry. -/
theorem extension_case_counterexample :
    (processEntry none { extensionMap := withExtensions ["GO"] }
      ["a.go"] false none).shouldProcess = false ∧
    (processEntry none { extensionMap := withExtensions ["GO"] }
      ["a.go"] false none).events =
      [.sawFile, .skipFile ⟨["a.go"], .filteredExtension, false⟩] ∧
    specExtAllowed ["GO"] ["a.go"] = true := by
  decide

/-- C8 (amended): a file that passes ignore-matching is delivered to
processing exactly when the allow-set is absent, empty, or contains the
file's lowercased extension verbatim — the file's suffix is lowercased
before the lookup, but allow-set entries are stored as given (the
application layer lowercases them before calling WithExtensions); a filtered
file is tracked with the extension-mismatch reason. -/
theorem extension_filter_amended (m : Option IgnoreMatcher) (o : WalkOptions)
    (rel : List String)
    (hc : o.cancelled = false) (hne : rel ≠ [])
    (hig : ignoredBy m rel false = false) :
    ((processEntry m o rel false none).shouldProcess = true ↔
      (∀ allow, o.extensionMap = some allow →
        allow.isEmpty = true ∨ allow.contains (extKey rel) = true)) ∧
    ((processEntry m o rel false none).shouldProcess = false →
      (processEntry m o rel false none).events =
        [.sawFile, .skipFile ⟨rel, .filteredExtension, false⟩]) := by
  unfold processEntry
  by_cases hf : extFilteredOut o rel = true
  · simp [hc, hne, hig, hf]
    unfold extFilteredOut at hf
    cases hm : o.extensionMap with
    | none => rw [hm] at hf; simp at hf
    | some allow =>
      rw [hm] at hf
      simp only [Bool.and_eq_true, Bool.not_eq_true'] at hf
      rcases hf with ⟨hf1, hf2⟩
      have hne2 : ¬allow = [] := by
        intro h1
        rw [h1] at hf1
        simp at hf1
      have hnm : extKey rel ∉ allow := by simpa using hf2
      exact ⟨allow, rfl, hne2, hnm⟩
  · simp [hc, hne, hig, hf]
    intro allow hm
    unfold extFilteredOut at hf
    rw [hm] at hf
    by_cases h1 : allow.isEmpty = true
    · left
      simpa using h1
    · right
      by_cases h2 : allow.contains (extKey rel) = true
      · simpa using h2
      · exfalso
        apply hf
        simp only [Bool.and_eq_true, Bool.not_eq_true']
        exact ⟨by simpa using h1, by simpa using h2⟩

/-- C8 (witness): the amended statement for allow-set go and file b.GO. -/
theorem extension_filter_amended_witness :
    ({ extensionMap := some ["go"] } : WalkOptions).cancelled = false ∧
    (["b.GO"] : List String) ≠ [] ∧
    ignoredBy none ["b.GO"] false = false ∧
    (((processEntry none { extensionMap := some ["go"] }
        ["b.GO"] false none).shouldProcess = true ↔
      (∀ allow, ({ extensionMap := some ["go"] } : WalkOptions).extensionMap = some allow →
        allow.isEmpty = true ∨ allow.contains (extKey ["b.GO"]) = true)) ∧
    ((processEntry none { extensionMap := some ["go"] }
        ["b.GO"] false none).shouldProcess = false →
      (processEntry none { extensionMap := some ["go"] }
        ["b.GO"] false none).events =
        [.sawFile, .skipFile ⟨["b.GO"], .filteredExtension, false⟩])) :=
  ⟨by decide, by decide, by decide,
    extension_filter_amended none { extensionMap := some ["go"] } ["b.GO"]
      (by decide) (by decide) (by decide)⟩

theorem processFile_calls_cases (o : WalkOptions) (wfn : WalkFn)
    (rel : List String) (f : FileMeta) :
    (processFile o wfn rel f).2 = [⟨rel, none, some .statFailed⟩] ∨
    (processFile o wfn rel f).2 = [] ∨
    (processFile o wfn rel f).2 =
      [⟨rel, none, some (.sizeExceeded f.size o.maxFileSize)⟩] ∨
    (processFile o wfn rel f).2 = [⟨rel, none, some .readFailed⟩] ∨
    (processFile o wfn rel f).2 = [⟨rel, some f.content, none⟩] := by
  unfold processFile processFileRead
  by_cases h1 : 0 < o.maxFileSize <;> by_cases h2 : f.statOk = false <;>
    by_cases h3 : f.regular = false <;> by_cases h4 : o.maxFileSize < f.size <;>
    by_cases h5 : f.readOk = false <;> simp [h1, h2, h3, h4, h5]

theorem callsOfItem_rel (o : WalkOptions) (wfn : WalkFn)
    (it : List String × FileMeta) :
    ∀ c ∈ callsOfItem o wfn it, c.rel = it.1 := by
  intro c hc
  unfold callsOfItem at hc
  rcases processFile_calls_cases o wfn it.1 it.2 with h | h | h | h | h <;>
    rw [h] at hc <;> simp at hc <;> simp [hc]

theorem callsOfItem_content (o : WalkOptions) (wfn : WalkFn)
    (it : List String × FileMeta) :
    ∀ c ∈ callsOfItem o wfn it, c.content.isSome = true → c.err = none := by
  intro c hc
  unfold callsOfItem at hc
  rcases processFile_calls_cases o wfn it.1 it.2 with h | h | h | h | h <;>
    rw [h] at hc <;> simp at hc <;> simp [hc]

theorem callsOfItem_length (o : WalkOptions) (wfn : WalkFn)
    (it : List String × FileMeta)
    (h : ¬(0 < o.maxFileSize ∧ it.2.statOk = true ∧ it.2.regular = false)) :
    (callsOfItem o wfn it).length = 1 := by
  unfold callsOfItem processFile processFileRead
  by_cases h1 : 0 < o.maxFileSize <;> by_cases h2 : it.2.statOk = false <;>
    by_cases h3 : it.2.regular = false <;> by_cases h4 : o.maxFileSize < it.2.size <;>
    by_cases h5 : it.2.readOk = false <;>
    simp [h1, h2, h3, h4, h5] <;>
    exact absurd ⟨h1, by simpa using h2, h3⟩ h

theorem filter_flatMap_calls (o : WalkOptions) (wfn : WalkFn) (p : List String) :
    ∀ l : List (List String × FileMeta),
      (∀ g, (p, g) ∈ l → ¬(0 < o.maxFileSize ∧ g.statOk = true ∧ g.regular = false)) →
      ((l.flatMap (callsOfItem o wfn)).filter (fun c => c.rel = p)).length =
        (l.map Prod.fst).count p := by
  intro l
  induction l with
  | nil => intro _; simp
  | cons it l ih =>
    intro h
    have htail := ih (fun g hg => h g (List.mem_cons_of_mem _ hg))
    by_cases hp : it.1 = p
    · have hmem : (p, it.2) ∈ it :: l := by
        rw [← hp]
        exact List.mem_cons_self _ _
      have hlen : (callsOfItem o wfn it).length = 1 :=
        callsOfItem_length o wfn it (h it.2 hmem)
      have hall : (callsOfItem o wfn it).filter (fun c => c.rel = p) =
          callsOfItem o wfn it := by
        rw [List.filter_eq_self]
        intro c hc
        simp [callsOfItem_rel o wfn it c hc, hp]
      simp only [List.flatMap_cons, List.filter_append, List.length_append, hall,
        hlen, List.map_cons, List.count_cons, htail]
      simp [hp]
      omega
    · have hnil : (callsOfItem o wfn it).filter (fun c => c.rel = p) = [] := by
        rw [List.filter_eq_nil_iff]
        intro c hc
        simp [callsOfItem_rel o wfn it c hc, hp]
      simp only [List.flatMap_cons, List.filter_append, List.length_append, hnil,
        List.map_cons, List.count_cons, htail]
      simp [hp]

/-- C9 (counterexample): with a size limit configured, a non-regular file
that passed every filter and whose stat succeeds is handed to processFile yet
produces no handler invocation at all — it is skipped with the not-regular
reason — refuting the claimed exactly-once handler invocation. -/
theorem handler_once_counterexample :
    eligList (enumRoot none { maxFileSize := 5 } (.dir (FSEntries.ofList
      [("dev0", .file { size := 1, regular := false })]))).1 =
      [(["dev0"], { size := 1, regular := false })] ∧
    ({ size := 1, regular := false } : FileMeta).statOk = true ∧
    (runWalkSeq none { maxFileSize := 5 } wfnNone (.dir (FSEntries.ofList
      [("dev0", .file { size := 1, regular := false })]))).1.calls = [] ∧
    (runWalkSeq none { maxFileSize := 5 } wfnNone (.dir (FSEntries.ofList
      [("dev0", .file { size := 1, regular := false })]))).1.tracker =
      [⟨["dev0"], .skippedNotRegular, false⟩] := by
  decide

/-- C9 (amended): for every file handed to processFile whose stat succeeds
and which is regular whenever a size limit is configured (non-regular files
are silently skipped after a successful stat), the handler is invoked
exactly once for that path during the walk; in every handler invocation the
content is non-nil only when the error is nil; and the walk outcome does not
depend on the handler's returned values. -/
theorem handler_exactly_once (m : Option IgnoreMatcher) (o : WalkOptions)
    (wfn : WalkFn) (root : RootFS) (p : List String)
    (hcount : ((eligList (enumRoot m o root).1).map Prod.fst).count p = 1)
    (hcond : ∀ g, (p, g) ∈ eligList (enumRoot m o root).1 →
      g.statOk = true ∧ (o.maxFileSize = 0 ∨ g.regular = true)) :
    ((runWalkSeq m o wfn root).1.calls.filter (fun c => c.rel = p)).length = 1 ∧
    (∀ c ∈ (runWalkSeq m o wfn root).1.calls,
      c.content.isSome = true → c.err = none) ∧
    (∀ wfn2 : WalkFn, runWalkSeq m o wfn root = runWalkSeq m o wfn2 root) := by
  have hcalls : (runWalkSeq m o wfn root).1.calls =
      (eligList (enumRoot m o root).1).flatMap (callsOfItem o wfn) := by
    show ((enumRoot m o root).1.foldl (applySeq o wfn) {}).calls = _
    rw [foldl_applySeq_calls]
    rfl
  refine ⟨?_, ?_, ?_⟩
  · have hcnd : ∀ g, (p, g) ∈ eligList (enumRoot m o root).1 →
        ¬(0 < o.maxFileSize ∧ g.statOk = true ∧ g.regular = false) := by
      intro g hg hcon
      rcases hcon with ⟨hmax, _, hreg⟩
      rcases (hcond g hg).2 with h0 | h1
      · omega
      · rw [h1] at hreg
        exact absurd hreg (by simp)
    rw [hcalls, filter_flatMap_calls o wfn p _ hcnd]
    exact hcount
  · rw [hcalls]
    intro c hc hcs
    rcases List.mem_flatMap.mp hc with ⟨it, _, hcit⟩
    exact callsOfItem_content o wfn it c hcit hcs
  · intro wfn2
    rfl

/-- C9 (witness): the amended statement at a one-file snapshot with no size
limit. -/
theorem handler_exactly_once_witness :
    ((eligList (enumRoot none {} (.dir (FSEntries.ofList
        [("a.txt", .file (fmBytes [5]))]))).1).map Prod.fst).count ["a.txt"] = 1 ∧
    ((runWalkSeq none {} wfnNone (.dir (FSEntries.ofList
        [("a.txt", .file (fmBytes [5]))]))).1.calls.filter
      (fun c => c.rel = ["a.txt"])).length = 1 :=
  ⟨by decide,
    (handler_exactly_once none {} wfnNone
      (.dir (FSEntries.ofList [("a.txt", .file (fmBytes [5]))])) ["a.txt"]
      (by decide)
      (fun g hg => by
        have hg2 : (["a.txt"], g) ∈ [((["a.txt"] : List String), fmBytes [5])] := hg
        have hg3 := List.mem_singleton.mp hg2
        injection hg3 with _ hgf
        subst hgf
        exact ⟨rfl, Or.inl rfl⟩)).1⟩

end DirDumper
